import Mathlib

/-!
Verification of the common utility routines library (`src/common.c`, `src/common.h`)
of the Signaloid demo repository.

Modelling conventions:

* C strings are modelled as `List Char` (`CStr`); the functions under study never
  read past a terminating NUL, so a plain character list is adequate.
* The single-precision (`float`) and double-precision (`double`) variants of each
  routine are textually identical in the source up to the numeric width; both are
  modelled once, with numbers represented exactly by `ℚ`.  Floating-point rounding
  is thus idealised away; all claims about numeric results are settled in this
  exact-arithmetic model.
* The external collaborators (`strtof`/`strtod` from libc and the platform
  primitives `UxHwFloatDistFromSamples`/`UxHwDoubleDistFromSamples` from `uxhw.h`)
  are not part of the repository; the CSV-ingestion model is parametric in them
  (`parseNum` for the numeric parser, `distFromSamples` for the sample-list to
  distribution conversion).  A concrete decimal parser is provided below for
  evaluating the model on concrete inputs.
-/

abbrev CStr := List Char

deriving instance DecidableEq for Except

/-- Constant `kCommonConstantMaxNumberOfInputSamples` from `src/common.h`. -/
def kCommonConstantMaxNumberOfInputSamples : ℕ := 10000

/-! ## Aggregate statistics (`src/common.c` lines 1437-1633) -/

/-- Result structure `MeanAndVariance` from `src/common.h`. -/
structure MeanAndVariance where
  mean : ℚ
  variance : ℚ
deriving DecidableEq

/-- Model of `calculateMeanAndVarianceOfFloatSamples` and
`calculateMeanAndVarianceOfDoubleSamples` (`src/common.c` lines 1437-1487):
one pass accumulating `sum` and `sumOfSquares`, then
`mean = sum / n` and `variance = sumOfSquares / n - mean * mean`.
For `n = 0` the C code divides by zero; in this model `ℚ` division by zero
yields the junk value `0`. -/
def calculateMeanAndVarianceOfSamples (dataArray : List ℚ) : MeanAndVariance :=
  let acc := dataArray.foldl (fun (p : ℚ × ℚ) x => (p.1 + x, p.2 + x * x)) (0, 0)
  let mean := acc.1 / (dataArray.length : ℚ)
  { mean := mean, variance := acc.2 / (dataArray.length : ℚ) - mean * mean }

/-- Model of `calculateMeanAndVarianceOfMultiDimensionalFloatSamples` and
`calculateMeanAndVarianceOfMultiDimensionalDoubleSamples`
(`src/common.c` lines 1581-1633): the row-major matrix `dataArray` is reduced
column by column (columns outer, rows inner); entry `dataArray[ii][jj]` is
modelled by nested `getD` with default `0`.  This auxiliary definition is the
body of the outer loop for one column `jj`: the inner reduction over the rows
followed by the mean and variance computation. -/
def multiDimensionalColumnPass (dataArray : List (List ℚ)) (dataArrayRows jj : ℕ) :
    ℚ × ℚ :=
  let acc := (List.range dataArrayRows).foldl
    (fun (p : ℚ × ℚ) ii =>
      (p.1 + (dataArray.getD ii []).getD jj 0,
       p.2 + (dataArray.getD ii []).getD jj 0 * (dataArray.getD ii []).getD jj 0)) (0, 0)
  let meanValue := acc.1 / (dataArrayRows : ℚ)
  (meanValue, acc.2 / (dataArrayRows : ℚ) - meanValue * meanValue)

/-- Model of the full multi-dimensional routines: one `multiDimensionalColumnPass`
per column index in `[0, dataArrayColumns)`; the two output arrays
`meanValueArray` and `varianceArray` are returned as a pair of lists. -/
def calculateMeanAndVarianceOfMultiDimensionalSamples
    (dataArray : List (List ℚ)) (dataArrayRows dataArrayColumns : ℕ) :
    List ℚ × List ℚ :=
  let results := (List.range dataArrayColumns).map
    (multiDimensionalColumnPass dataArray dataArrayRows)
  (results.map Prod.fst, results.map Prod.snd)

/-- Model of the C cast `(int)q` applied to a nonnegative-or-negative rational:
truncation toward zero (`Int.tdiv` is T-division, exactly the C semantics). -/
def truncToInt (q : ℚ) : ℤ := Int.tdiv q.num q.den

/-- Model of `qsort(dataArrayCopy, n, width, compareFloats/compareDoubles)`
(`src/common.c` lines 1489-1503, 1527, 1565).  The comparator returns the sign
of `a - b`, so `qsort` produces an ascending-sorted permutation; over a linear
order that permutation is unique, hence any sorting algorithm is a faithful
model.  We use insertion sort, which has the needed lemmas. -/
def sortSamples (l : List ℚ) : List ℚ := l.insertionSort (· ≤ ·)

/-- Model of `calculatePercentageQuantileOfFloatSamples` and
`calculatePercentageQuantileOfDoubleSamples` (`src/common.c` lines 1505-1579).
The code copies the input array, sorts the copy ascending, computes
`index = (int)(quantilePercentage * dataArraySize)` and reads
`dataArrayCopy[index]`.  The read is modelled with an explicit bounds check:
`none` marks the out-of-bounds access the C code would perform.  The second
component of the result is the caller's array after the call; the code sorts
only the copy, so it is returned unchanged. -/
def calculatePercentageQuantileOfSamples (dataArray : List ℚ)
    (quantilePercentage : ℚ) : Option ℚ × List ℚ :=
  let dataArrayCopy := sortSamples dataArray
  let index := truncToInt (quantilePercentage * (dataArray.length : ℚ))
  let quantile :=
    if h : 0 ≤ index ∧ index.toNat < dataArrayCopy.length then
      some (dataArrayCopy.get ⟨index.toNat, h.2⟩)
    else
      none
  (quantile, dataArray)

/-! ## CSV header validation and row ingestion (`src/common.c` lines 204-645) -/

/-- Model of `safeIsspace` (`src/common.c` lines 204-211): `isspace` in the C
locale accepts exactly space, tab, newline, vertical tab, form feed and
carriage return. -/
def safeIsspace (c : Char) : Bool :=
  c == ' ' || c == '\t' || c == '\n' || c == '\x0b' || c == '\x0c' || c == '\r'

/-- Chunks of a line between commas, including empty chunks.  Auxiliary for the
`strtok_r(_, ",", _)` model: `strtok_r` returns exactly the nonempty chunks. -/
def splitOnComma : CStr → List CStr
  | [] => [[]]
  | c :: rest =>
    let s := splitOnComma rest
    if c = ',' then [] :: s else (c :: s.headI) :: s.tail

/-- Model of repeated `strtok_r(buffer, ",", &strtokState)` calls
(`src/common.c` lines 224, 288, 457, 562): the successive tokens are the
maximal nonempty runs of non-comma characters, i.e. consecutive, leading and
trailing delimiters produce no empty tokens. -/
def strtokSplit (l : CStr) : List CStr :=
  (splitOnComma l).filter (fun t => !t.isEmpty)

/-- Error taxonomy of `validateInputDistributionCSVHeader`, one constructor per
`return kCommonConstantReturnTypeError` site (`src/common.c` lines 226-297),
recording which diagnostic is printed (and, for the per-column errors, the
0-based column index reported). -/
inductive HeaderError where
  | tooManyColumns : HeaderError
  | headerMismatch : ℕ → HeaderError
  | trailingCharacters : ℕ → HeaderError
  | tooFewColumns : HeaderError
deriving DecidableEq

/-- Loop body of `validateInputDistributionCSVHeader` (`src/common.c` lines
226-299), recursing over the token list with the running `columnCount`:
reaching a token with `columnCount == numberOfExpectedHeaders` is the
"more than expected" error; each token is trimmed of leading whitespace, must
start with the expected header, and may carry only whitespace after it; after
the loop, `columnCount != numberOfExpectedHeaders` is the "less than expected"
error. -/
def validateHeaderTokens (expectedHeaders : List CStr) :
    List CStr → ℕ → Except HeaderError Unit
  | [], columnCount =>
    if columnCount ≠ expectedHeaders.length then .error .tooFewColumns else .ok ()
  | token :: rest, columnCount =>
    if columnCount = expectedHeaders.length then .error .tooManyColumns
    else
      let expected := expectedHeaders.getD columnCount []
      let tok := token.dropWhile safeIsspace
      if ¬ expected.isPrefixOf tok then .error (.headerMismatch columnCount)
      else if ¬ (tok.drop expected.length).all safeIsspace then
        .error (.trailingCharacters columnCount)
      else validateHeaderTokens expectedHeaders rest (columnCount + 1)

/-- Model of `validateInputDistributionCSVHeader` (`src/common.c` lines
213-300). -/
def validateInputDistributionCSVHeader (actualHeaderRow : CStr)
    (expectedHeaders : List CStr) : Except HeaderError Unit :=
  validateHeaderTokens expectedHeaders (strtokSplit actualHeaderRow) 0

/-- Whether a character list starts with the two-character marker `"Ux"`. -/
def startsWithUx : CStr → Bool
  | c1 :: c2 :: _ => c1 == 'U' && c2 == 'x'
  | _ => false

/-- Model of `strstr(token, "Ux") != NULL` (`src/common.c` line 485): some
suffix of the token starts with the marker substring. -/
def containsUxMarker : CStr → Bool
  | [] => false
  | c :: rest => startsWithUx (c :: rest) || containsUxMarker rest

/-- Model of the ignore-pattern test (`src/common.c` lines 490-506): the token
is ignored exactly when its first character is `-` and every following
character up to the end of the token is whitespace. -/
def isIgnoreToken : CStr → Bool
  | [] => false
  | c :: rest => c == '-' && rest.all safeIsspace

/-- Per-column ingestion state: the classification flag `uxColumns[col]`, the
sample buffer `inputFloatSampleValues[col]`/`inputDoubleSampleValues[col]`
(modelled as the written prefix of the `calloc`-zeroed capacity-10000 array),
and the fill counter `sampleCounts[col]`. -/
structure ColState where
  ux : Bool
  buf : List ℚ
  count : ℕ
deriving DecidableEq

/-- Array write `buf[i] = v` on a `calloc`-zeroed buffer modelled by its
written prefix: positions beyond the prefix read as `0`. -/
def writeAt (buf : List ℚ) (i : ℕ) (v : ℚ) : List ℚ :=
  if i < buf.length then buf.set i v
  else buf ++ List.replicate (i - buf.length) 0 ++ [v]

/-- The samples of a column that count: the first `count` cells of its buffer
(exactly what the code hands to `UxHwFloatDistFromSamples` /
`UxHwDoubleDistFromSamples` as `(buffer, sampleCounts[col])`). -/
def countedSamples (cs : ColState) : List ℚ :=
  (List.range cs.count).map (fun k => cs.buf.getD k 0)

/-- Initial per-column state: flag false, `calloc`-zeroed buffer, counter 0
(`src/common.c` lines 371-398). -/
def initialColState : ColState := { ux := false, buf := [], count := 0 }

/-- Error taxonomy of `readInputDistributionsFromCSV`, one constructor per
distinct failure diagnostic reachable from the row-processing loop
(`src/common.c` lines 428-577); the I/O failures before the loop (file not
found, `stdin` pipeline mode) are outside the model, which starts from the
list of lines read. -/
inductive ReadError where
  | headerInvalid : HeaderError → ReadError
  | tooManyRows : ReadError
  | tooManyEntries : ℕ → ReadError
  | invalidNumber : ℕ → ℕ → ReadError
  | tooFewEntries : ℕ → ReadError
deriving DecidableEq

/-- Processing of one (already trimmed) token for one column
(`src/common.c` lines 480-560): a column already flagged as a Ux column is
skipped entirely; otherwise, on data row 0 a token containing the marker sets
the flag; then an ignore-pattern token stores `0.0` at the fill index without
advancing the counter, and any other token is parsed (`none` models the parse
failure that aborts the read) and stored at the fill index, advancing the
counter. -/
def processToken (parseNum : CStr → Option ℚ) (rowIdx : ℕ) (cs : ColState)
    (tok : CStr) : Option ColState :=
  if cs.ux then some cs
  else
    let cs1 := if (rowIdx == 0) && containsUxMarker tok then
      { cs with ux := true } else cs
    if isIgnoreToken tok then
      some { cs1 with buf := writeAt cs1.buf cs1.count 0 }
    else
      match parseNum tok with
      | none => none
      | some v =>
        some { cs1 with
          buf := writeAt cs1.buf cs1.count v
          count := cs1.count + 1 }

/-- The per-row token loop (`src/common.c` lines 455-574): tokens are consumed
left to right in lockstep with the column states; each token is first trimmed
of leading whitespace; a token arriving after all expected columns are filled
is the "more than expected entries" error; a parse failure is the "not a valid
number" error with its row and column; tokens running out before the columns
is the "less than expected entries" error checked after the loop. -/
def processRowTokens (parseNum : CStr → Option ℚ) (rowIdx : ℕ) :
    ℕ → List CStr → List ColState → Except ReadError (List ColState)
  | _, [], [] => .ok []
  | _, [], _ :: _ => .error (.tooFewEntries rowIdx)
  | _, _ :: _, [] => .error (.tooManyEntries rowIdx)
  | col, token :: restTokens, cs :: restStates =>
    let tok := token.dropWhile safeIsspace
    match processToken parseNum rowIdx cs tok with
    | none => .error (.invalidNumber rowIdx col)
    | some cs2 =>
      match processRowTokens parseNum rowIdx (col + 1) restTokens restStates with
      | .error e => .error e
      | .ok rest2 => .ok (cs2 :: rest2)

/-- The data-row loop (`src/common.c` lines 428-577 after the header row):
`rowIdx` is the running `rowCount`; before a row's tokens are touched,
`rowCount >= kCommonConstantMaxNumberOfInputSamples` aborts with the
"too many rows" error. -/
def processDataRows (parseNum : CStr → Option ℚ) :
    List CStr → List ColState → ℕ → Except ReadError (List ColState)
  | [], states, _ => .ok states
  | line :: rest, states, rowIdx =>
    if kCommonConstantMaxNumberOfInputSamples ≤ rowIdx then .error .tooManyRows
    else
      match processRowTokens parseNum rowIdx 0 (strtokSplit line) states with
      | .error e => .error e
      | .ok states2 => processDataRows parseNum rest states2 (rowIdx + 1)

/-- Materialization of one column (`src/common.c` lines 587-614): a Ux column
passes through the raw cell at index 0 of its buffer (a `calloc` zero if
nothing was ever written there); any other column is converted by the external
sample-to-distribution primitive applied to its counted samples. -/
def materializeColumn (distFromSamples : List ℚ → ℚ) (cs : ColState) : ℚ :=
  if cs.ux then cs.buf.getD 0 0 else distFromSamples (countedSamples cs)

/-- Model of `readInputDistributionsFromCSV` (`src/common.c` lines 332-645),
covering both `readInputFloatDistributionsFromCSV` and
`readInputDoubleDistributionsFromCSV`, parametric in the external numeric
parser (`strtof`/`strtod`) and the external sample-to-distribution primitive.
The file is modelled as the list of its line buffers exactly as `fgets`
delivers them; `fgets` retains each line's trailing newline (only the final
line of a file may lack one), and the model is a plain function of the
supplied buffers, so theorems quantifying over `lines` cover newline-carrying
and newline-free buffers alike.  The trailing newline is not always inert: a
line ending in a comma followed by the newline tokenizes into an extra `"\n"`
token (see the tokenization claims below).  `numberOfDistributions == 0`
returns success having written nothing; a file with no lines at all skips
header validation entirely and materializes the untouched initial column
states. -/
def readInputDistributionsFromCSV (parseNum : CStr → Option ℚ)
    (distFromSamples : List ℚ → ℚ) (lines : List CStr)
    (expectedHeaders : List CStr) : Except ReadError (List ℚ) :=
  if expectedHeaders.length = 0 then .ok []
  else
    match lines with
    | [] => .ok ((expectedHeaders.map fun _ => initialColState).map
        (materializeColumn distFromSamples))
    | headerLine :: dataLines =>
      match validateInputDistributionCSVHeader headerLine expectedHeaders with
      | .error e => .error (.headerInvalid e)
      | .ok _ =>
        match processDataRows parseNum dataLines
            (expectedHeaders.map fun _ => initialColState) 0 with
        | .error e => .error e
        | .ok states => .ok (states.map (materializeColumn distFromSamples))

/-! ### A concrete instance of the external numeric parser -/

/-- Concrete decimal parser used to evaluate the model on concrete inputs: a
model of the external libc `strtof`/`strtod` restricted to plain decimal
literals (optional whitespace and sign, digits with an optional fractional
part, trailing non-numeric characters ignored); it fails exactly when no digit
is consumed.  The general theorems below are parametric in the parser and do
not depend on this instance. -/
def decimalParse (t : CStr) : Option ℚ :=
  let t1 := t.dropWhile safeIsspace
  let signAndRest : Bool × CStr :=
    match t1 with
    | '-' :: r => (true, r)
    | '+' :: r => (false, r)
    | _ => (false, t1)
  let ds := signAndRest.2.takeWhile Char.isDigit
  let r1 := signAndRest.2.dropWhile Char.isDigit
  let fs :=
    match r1 with
    | '.' :: r => r.takeWhile Char.isDigit
    | _ => []
  if ds.isEmpty && fs.isEmpty then none
  else
    let intPart : ℕ := ds.foldl (fun a c => a * 10 + (c.toNat - '0'.toNat)) 0
    let fracPart : ℕ := fs.foldl (fun a c => a * 10 + (c.toNat - '0'.toNat)) 0
    let magnitude : ℚ :=
      if fs.isEmpty then (intPart : ℚ)
      else (intPart : ℚ) + (fracPart : ℚ) / (10 : ℚ) ^ fs.length
    some (if signAndRest.1 then -magnitude else magnitude)

/-- Concrete platform-like parser: on the Signaloid platform `strtof`/`strtod`
additionally parse serialized `Ux` distribution values; for concrete witnesses
a token containing the marker is given the stand-in value `0`. -/
def uxParse (t : CStr) : Option ℚ :=
  if containsUxMarker t then some 0 else decimalParse t

/-! ### Specification-side descriptions of the ingested data -/

/-- The trimmed token of column `j` in a data line (specification side). -/
def columnTokenAt (line : CStr) (j : ℕ) : CStr :=
  ((strtokSplit line).getD j []).dropWhile safeIsspace

/-- The samples a non-Ux column `j` accumulates over the data lines
(specification side): one parsed value per line whose token at `j` is not the
ignore pattern. -/
def specColumnSamples (parseNum : CStr → Option ℚ) (dataLines : List CStr)
    (j : ℕ) : List ℚ :=
  dataLines.filterMap fun line =>
    let tok := columnTokenAt line j
    if isIgnoreToken tok then none else parseNum tok


/-- Convenience conversion from a Lean string literal to the `CStr` model. -/
def toCStr (s : String) : CStr := s.data

/-- Specification-side description of a header token that passes both
per-column value checks of the header validator: after trimming leading
whitespace it starts with the expected header and carries only whitespace
after the matched prefix. -/
def headerTokenOK (expectedHeader token : CStr) : Bool :=
  let tok := token.dropWhile safeIsspace
  expectedHeader.isPrefixOf tok && (tok.drop expectedHeader.length).all safeIsspace


/-- Specification-side description of the column states reached after
ingesting the data rows `rowsSoFar`: before any data row every column is in
its initial state; afterwards a column whose row-0 token contains the marker
is flagged and carries exactly the one value captured at row 0, and any other
column is unflagged and carries exactly its accumulated samples. -/
def specColMatches (parseNum : CStr → Option ℚ) (rowsSoFar : List CStr) (j : ℕ)
    (cs : ColState) : Prop :=
  match rowsSoFar with
  | [] => cs = initialColState
  | row0 :: _ =>
    if containsUxMarker (columnTokenAt row0 j) = true then
      cs.ux = true ∧ countedSamples cs = [(parseNum (columnTokenAt row0 j)).getD 0]
    else
      cs.ux = false ∧ countedSamples cs = specColumnSamples parseNum rowsSoFar j

/-! ## Proofs -/

/-! ### Helper lemmas for the statistics claims -/

lemma foldl_sum_sq (l : List ℚ) (a b : ℚ) :
    l.foldl (fun (p : ℚ × ℚ) x => (p.1 + x, p.2 + x * x)) (a, b)
      = (a + l.sum, b + (l.map fun x => x * x).sum) := by
  induction l generalizing a b with
  | nil => simp
  | cons x xs ih =>
      simp only [List.foldl_cons, List.sum_cons, List.map_cons, ih, Prod.mk.injEq]
      exact ⟨by ring, by ring⟩

lemma mean_eq_sum_div (l : List ℚ) :
    (calculateMeanAndVarianceOfSamples l).mean = l.sum / (l.length : ℚ) := by
  unfold calculateMeanAndVarianceOfSamples
  rw [foldl_sum_sq]
  simp

lemma variance_eq_sumsq_div (l : List ℚ) :
    (calculateMeanAndVarianceOfSamples l).variance
      = (l.map fun x => x * x).sum / (l.length : ℚ)
        - (l.sum / (l.length : ℚ)) * (l.sum / (l.length : ℚ)) := by
  unfold calculateMeanAndVarianceOfSamples
  rw [foldl_sum_sq]
  simp

lemma sum_sq_dev (l : List ℚ) (m : ℚ) :
    (l.map fun x => (x - m) ^ 2).sum
      = (l.map fun x => x * x).sum - 2 * m * l.sum + (l.length : ℚ) * m ^ 2 := by
  induction l with
  | nil => simp
  | cons x xs ih =>
      simp only [List.map_cons, List.sum_cons, List.length_cons, ih]
      push_cast
      ring

/-- Claim C8: `calculateMeanAndVarianceOfFloatSamples` /
`calculateMeanAndVarianceOfDoubleSamples` computes, for `n ≥ 1` samples,
`mean = sum / n` and `variance = sumOfSquares / n - mean²`, which equals the
biased population variance `(Σ (x - mean)²) / n`; in particular, on a constant
array of value `c` repeated `n ≥ 1` times the mean is `c` and the variance `0`
(exactly, in the idealised arithmetic model). -/
theorem meanAndVariance_population_and_constant (l : List ℚ) (hl : l ≠ []) :
    (calculateMeanAndVarianceOfSamples l).mean = l.sum / (l.length : ℚ) ∧
    (calculateMeanAndVarianceOfSamples l).variance
      = (l.map fun x => x * x).sum / (l.length : ℚ)
        - (l.sum / (l.length : ℚ)) * (l.sum / (l.length : ℚ)) ∧
    (calculateMeanAndVarianceOfSamples l).variance
      = (l.map fun x => (x - l.sum / (l.length : ℚ)) ^ 2).sum / (l.length : ℚ) ∧
    (∀ (c : ℚ) (n : ℕ), 1 ≤ n → l = List.replicate n c →
      (calculateMeanAndVarianceOfSamples l).mean = c ∧
      (calculateMeanAndVarianceOfSamples l).variance = 0) := by
  have hn : (l.length : ℚ) ≠ 0 := by
    exact_mod_cast Nat.pos_iff_ne_zero.mp (List.length_pos.mpr hl)
  refine ⟨mean_eq_sum_div l, variance_eq_sumsq_div l, ?_, ?_⟩
  · rw [variance_eq_sumsq_div, sum_sq_dev]
    field_simp
    ring
  · rintro c n hn1 rfl
    have hlen : ((List.replicate n c).length : ℚ) = (n : ℚ) := by simp
    have hnq : (n : ℚ) ≠ 0 := by
      exact_mod_cast Nat.one_le_iff_ne_zero.mp hn1
    constructor
    · rw [mean_eq_sum_div, hlen]
      simp only [List.sum_replicate, nsmul_eq_mul]
      field_simp
    · rw [variance_eq_sumsq_div, hlen]
      simp only [List.map_replicate, List.sum_replicate, nsmul_eq_mul]
      field_simp

/-- Witness for C8 at the concrete input `[1, 2]`. -/
theorem meanAndVariance_population_and_constant_witness :
    (calculateMeanAndVarianceOfSamples [1, 2]).mean = ([1, 2] : List ℚ).sum / 2 ∧
    (calculateMeanAndVarianceOfSamples [1, 2]).variance
      = (([1, 2] : List ℚ).map fun x => x * x).sum / 2
        - (([1, 2] : List ℚ).sum / 2) * (([1, 2] : List ℚ).sum / 2) := by
  have h := meanAndVariance_population_and_constant [1, 2] (by decide)
  have hlen : (([1, 2] : List ℚ).length : ℚ) = 2 := by norm_num
  exact ⟨by rw [h.1, hlen], by rw [h.2.1, hlen]⟩

lemma getD_map_range {α : Type} (f : ℕ → α) (n j : ℕ) (hj : j < n) (d : α) :
    (((List.range n).map f).getD j d) = f j := by
  rw [List.getD_eq_getElem _ _ (by simpa using hj)]
  simp

lemma range_foldl_access (m : List (List ℚ)) (j : ℕ)
    (g : (ℚ × ℚ) → ℚ → (ℚ × ℚ)) (init : ℚ × ℚ) :
    (List.range m.length).foldl (fun p ii => g p ((m.getD ii []).getD j 0)) init
      = (m.map fun row => row.getD j 0).foldl g init := by
  induction m generalizing init with
  | nil => simp
  | cons row rest ih =>
      rw [List.map_cons, List.foldl_cons, List.length_cons, List.range_succ_eq_map,
        List.foldl_cons, List.foldl_map]
      simp only [List.getD_cons_zero, List.getD_cons_succ]
      exact ih (g init (row.getD j 0))

lemma multiDimensionalColumnPass_eq (m : List (List ℚ)) (j : ℕ) :
    multiDimensionalColumnPass m m.length j
      = ((calculateMeanAndVarianceOfSamples (m.map fun row => row.getD j 0)).mean,
         (calculateMeanAndVarianceOfSamples (m.map fun row => row.getD j 0)).variance) := by
  unfold multiDimensionalColumnPass calculateMeanAndVarianceOfSamples
  rw [range_foldl_access m j (fun p x => (p.1 + x, p.2 + x * x)) (0, 0)]
  simp [List.length_map]

/-- Claim C9: for a row-major matrix with `R ≥ 1` rows and `C` columns, the
multi-dimensional mean/variance routine produces, for each column `j`, exactly
the mean and variance that the 1-D routine computes on the list of that
column's `R` samples, independently of all other columns. -/
theorem multiDimensional_matches_oneDimensional (m : List (List ℚ)) (rows cols : ℕ)
    (hrows : 1 ≤ rows) (hlen : m.length = rows)
    (_hrect : ∀ row ∈ m, row.length = cols) (j : ℕ) (hj : j < cols) :
    (calculateMeanAndVarianceOfMultiDimensionalSamples m rows cols).1.getD j 0
      = (calculateMeanAndVarianceOfSamples (m.map fun row => row.getD j 0)).mean ∧
    (calculateMeanAndVarianceOfMultiDimensionalSamples m rows cols).2.getD j 0
      = (calculateMeanAndVarianceOfSamples (m.map fun row => row.getD j 0)).variance := by
  subst hlen
  unfold calculateMeanAndVarianceOfMultiDimensionalSamples
  simp only [List.map_map]
  rw [getD_map_range _ cols j hj, getD_map_range _ cols j hj]
  simp [Function.comp, multiDimensionalColumnPass_eq]

/-- Witness for C9 at the concrete matrix `[[1, 2], [3, 4]]` (2 rows, 2 columns),
column `1`. -/
theorem multiDimensional_matches_oneDimensional_witness :
    (calculateMeanAndVarianceOfMultiDimensionalSamples [[1, 2], [3, 4]] 2 2).1.getD 1 0
      = (calculateMeanAndVarianceOfSamples (([[1, 2], [3, 4]] : List (List ℚ)).map
          fun row => row.getD 1 0)).mean ∧
    (calculateMeanAndVarianceOfMultiDimensionalSamples [[1, 2], [3, 4]] 2 2).2.getD 1 0
      = (calculateMeanAndVarianceOfSamples (([[1, 2], [3, 4]] : List (List ℚ)).map
          fun row => row.getD 1 0)).variance :=
  multiDimensional_matches_oneDimensional [[1, 2], [3, 4]] 2 2 (by decide) (by decide)
    (by decide) 1 (by decide)

lemma truncToInt_of_nonneg (q : ℚ) (hq : 0 ≤ q) : truncToInt q = ⌊q⌋ := by
  unfold truncToInt
  rw [Rat.floor_def]
  exact Int.tdiv_eq_ediv (Rat.num_nonneg.mpr hq) (by positivity)

lemma length_sortSamples (l : List ℚ) : (sortSamples l).length = l.length :=
  (List.perm_insertionSort (· ≤ ·) l).length_eq

/-- Claim C3: for a non-empty sample array of size `n` and a quantile fraction
`p` with `0 ≤ p` and `⌊p * n⌋ < n`, the quantile routine returns the element at
index `⌊p * n⌋` of an ascending-sorted copy of the array (nearest rank, no
interpolation), and the caller's input array is unchanged. -/
theorem quantile_nearest_rank (l : List ℚ) (p : ℚ) (_hl : l ≠ []) (hp : 0 ≤ p)
    (hidx : ⌊p * (l.length : ℚ)⌋ < (l.length : ℤ)) :
    List.Sorted (· ≤ ·) (sortSamples l) ∧
    (sortSamples l).Perm l ∧
    (calculatePercentageQuantileOfSamples l p).1
      = some ((sortSamples l).getD (⌊p * (l.length : ℚ)⌋).toNat 0) ∧
    (calculatePercentageQuantileOfSamples l p).2 = l := by
  have hfloor : truncToInt (p * (l.length : ℚ)) = ⌊p * (l.length : ℚ)⌋ :=
    truncToInt_of_nonneg _ (by positivity)
  have h0 : 0 ≤ ⌊p * (l.length : ℚ)⌋ := Int.floor_nonneg.mpr (by positivity)
  have hlt : (⌊p * (l.length : ℚ)⌋).toNat < (sortSamples l).length := by
    rw [length_sortSamples]
    omega
  refine ⟨List.sorted_insertionSort _ l, List.perm_insertionSort _ l, ?_, rfl⟩
  unfold calculatePercentageQuantileOfSamples
  simp only [hfloor]
  rw [dif_pos ⟨h0, hlt⟩]
  rw [List.getD_eq_getElem _ _ hlt]
  simp

/-- Witness for C3 at `l = [3, 1, 2]`, `p = 1/2` (so `⌊p * n⌋ = 1`). -/
theorem quantile_nearest_rank_witness :
    List.Sorted (· ≤ ·) (sortSamples [3, 1, 2]) ∧
    (sortSamples [3, 1, 2]).Perm [3, 1, 2] ∧
    (calculatePercentageQuantileOfSamples [3, 1, 2] (1 / 2)).1
      = some ((sortSamples [3, 1, 2]).getD
          (⌊(1 / 2 : ℚ) * ((([3, 1, 2] : List ℚ).length : ℕ) : ℚ)⌋).toNat 0) ∧
    (calculatePercentageQuantileOfSamples [3, 1, 2] (1 / 2)).2 = [3, 1, 2] :=
  quantile_nearest_rank [3, 1, 2] (1 / 2) (by decide) (by norm_num) (by norm_num)

/-- Claim C4: for a non-empty array of size `n`, calling the quantile routine
with `quantilePercentage = 1` computes the selection index `n` with no
clamping, and the access at that index is out of bounds (one past the last
element of the sorted copy); the model returns `none` for the out-of-bounds
read. -/
theorem quantile_at_one_out_of_bounds (l : List ℚ) (_hl : l ≠ []) :
    truncToInt ((1 : ℚ) * (l.length : ℚ)) = (l.length : ℤ) ∧
    ¬ (truncToInt ((1 : ℚ) * (l.length : ℚ))).toNat < (sortSamples l).length ∧
    (calculatePercentageQuantileOfSamples l 1).1 = none := by
  have hone : truncToInt ((1 : ℚ) * (l.length : ℚ)) = (l.length : ℤ) := by
    rw [one_mul]
    unfold truncToInt
    rw [Rat.num_natCast, Rat.den_natCast]
    exact Int.tdiv_one _
  refine ⟨hone, ?_, ?_⟩
  · rw [hone, length_sortSamples]
    simp
  · unfold calculatePercentageQuantileOfSamples
    simp only [hone]
    rw [dif_neg]
    rintro ⟨-, h2⟩
    rw [length_sortSamples] at h2
    simp at h2

/-- Witness for C4 at `l = [5]`. -/
theorem quantile_at_one_out_of_bounds_witness :
    truncToInt ((1 : ℚ) * ((([5] : List ℚ).length : ℕ) : ℚ)) = (([5] : List ℚ).length : ℤ) ∧
    ¬ (truncToInt ((1 : ℚ) * ((([5] : List ℚ).length : ℕ) : ℚ))).toNat
        < (sortSamples [5]).length ∧
    (calculatePercentageQuantileOfSamples [5] 1).1 = none :=
  quantile_at_one_out_of_bounds [5] (by decide)

/-! ### Header validation: error ordering (claim C2) -/

lemma splitOnComma_ne_nil (l : CStr) : splitOnComma l ≠ [] := by
  cases l with
  | nil => simp [splitOnComma]
  | cons c rest =>
      by_cases h : c = ','
      · simp [splitOnComma, h]
      · simp [splitOnComma, h]

/-- Counterexample to claim C2 as stated: for header row `"x,y"` against the
single expected header `"a"` there is a column-count mismatch (2 tokens vs. 1
expected), yet the validator reports the column-0 header-value mismatch, not a
count error. -/
theorem header_count_error_counterexample :
    (strtokSplit (toCStr "x,y")).length = 2 ∧
    ([toCStr "a"] : List CStr).length = 1 ∧
    validateInputDistributionCSVHeader (toCStr "x,y") [toCStr "a"]
      = .error (.headerMismatch 0) := by
  decide

lemma validateHeaderTokens_tooMany (expected : List CStr) :
    ∀ (tokens : List CStr) (cc : ℕ), cc ≤ expected.length →
    expected.length < cc + tokens.length →
    (∀ j, cc + j < expected.length →
      headerTokenOK (expected.getD (cc + j) []) (tokens.getD j []) = true) →
    validateHeaderTokens expected tokens cc = .error .tooManyColumns := by
  intro tokens
  induction tokens with
  | nil =>
      intro cc h1 h2 _
      simp only [List.length_nil, Nat.add_zero] at h2
      omega
  | cons token rest ih =>
      intro cc h1 h2 hok
      simp only [List.length_cons] at h2
      unfold validateHeaderTokens
      by_cases hcc : cc = expected.length
      · rw [if_pos hcc]
      · rw [if_neg hcc]
        have hcclt : cc < expected.length := lt_of_le_of_ne h1 hcc
        have h0 := hok 0 (by omega)
        simp only [Nat.add_zero, List.getD_cons_zero, headerTokenOK,
          Bool.and_eq_true] at h0
        rw [if_neg (by simpa using h0.1), if_neg (by simpa using h0.2)]
        exact ih (cc + 1) (by omega) (by omega)
          (fun j hj => by
            have := hok (j + 1) (by omega)
            simpa [Nat.add_assoc, Nat.add_comm 1 j] using this)

lemma validateHeaderTokens_tooFew (expected : List CStr) :
    ∀ (tokens : List CStr) (cc : ℕ),
    cc + tokens.length < expected.length →
    (∀ j, j < tokens.length →
      headerTokenOK (expected.getD (cc + j) []) (tokens.getD j []) = true) →
    validateHeaderTokens expected tokens cc = .error .tooFewColumns := by
  intro tokens
  induction tokens with
  | nil =>
      intro cc h1 _
      unfold validateHeaderTokens
      rw [if_pos (by omega)]
  | cons token rest ih =>
      intro cc h1 hok
      unfold validateHeaderTokens
      rw [if_neg (by omega)]
      have h0 := hok 0 (by simp)
      simp only [Nat.add_zero, List.getD_cons_zero, headerTokenOK,
        Bool.and_eq_true] at h0
      rw [if_neg (by simpa using h0.1), if_neg (by simpa using h0.2)]
      exact ih (cc + 1) (by simp only [List.length_cons] at h1; omega)
        (fun j hj => by
          have := hok (j + 1) (by simpa using Nat.succ_lt_succ hj)
          simpa [Nat.add_assoc, Nat.add_comm 1 j] using this)

/-- Claim C2, amended: a count mismatch is reported by
`validateInputDistributionCSVHeader` only when every token it examines before
the count check passes the per-column value checks.  Concretely: when the row
has more tokens than expected headers and the first `N` tokens all pass their
value checks, the "more than expected" error is reported (as soon as the
`(N+1)`-th token is reached); when the row has fewer tokens than expected and
all its tokens pass their value checks, the "less than expected" error is
reported after the loop.  A value error at an earlier column takes precedence
over either count error (see the counterexample). -/
theorem header_count_error_order_amended (row : CStr) (expected : List CStr) :
    ((expected.length < (strtokSplit row).length ∧
      ∀ j, j < expected.length →
        headerTokenOK (expected.getD j []) ((strtokSplit row).getD j []) = true) →
      validateInputDistributionCSVHeader row expected = .error .tooManyColumns) ∧
    (((strtokSplit row).length < expected.length ∧
      ∀ j, j < (strtokSplit row).length →
        headerTokenOK (expected.getD j []) ((strtokSplit row).getD j []) = true) →
      validateInputDistributionCSVHeader row expected = .error .tooFewColumns) := by
  constructor
  · rintro ⟨h1, h2⟩
    exact validateHeaderTokens_tooMany expected (strtokSplit row) 0 (by omega)
      (by omega) (fun j hj => by simpa using h2 j (by omega))
  · rintro ⟨h1, h2⟩
    exact validateHeaderTokens_tooFew expected (strtokSplit row) 0 (by omega)
      (fun j hj => by simpa using h2 j hj)

/-- Witness for the amended claim C2: `"a,b,c"` against `["a","b"]` reports the
too-many error; `"a"` against `["a","b"]` reports the too-few error. -/
theorem header_count_error_order_amended_witness :
    validateInputDistributionCSVHeader (toCStr "a,b,c") [toCStr "a", toCStr "b"]
      = .error .tooManyColumns ∧
    validateInputDistributionCSVHeader (toCStr "a") [toCStr "a", toCStr "b"]
      = .error .tooFewColumns :=
  ⟨(header_count_error_order_amended (toCStr "a,b,c") [toCStr "a", toCStr "b"]).1
      (by constructor
          · decide
          · decide),
   (header_count_error_order_amended (toCStr "a") [toCStr "a", toCStr "b"]).2
      (by constructor
          · decide
          · decide)⟩

/-! ### Tokenization collapses empty fields (claim C10) -/

lemma splitOnComma_comma (rest : CStr) :
    splitOnComma (',' :: rest) = [] :: splitOnComma rest := by
  simp [splitOnComma]

lemma splitOnComma_cons_of_ne (c : Char) (rest : CStr) (h : ¬ c = ',') :
    splitOnComma (c :: rest)
      = (c :: (splitOnComma rest).headI) :: (splitOnComma rest).tail := by
  simp [splitOnComma, h]

lemma filter_tail_of_filter_eq (s1 s2 T : List CStr) (h1 : s1 ≠ []) (h2 : s2 ≠ [])
    (hh : s1.headI = s2.headI)
    (hf : s1.filter (fun t => !t.isEmpty) = s2.filter (fun t => !t.isEmpty) ++ T) :
    s1.tail.filter (fun t => !t.isEmpty)
      = s2.tail.filter (fun t => !t.isEmpty) ++ T := by
  cases s1 with
  | nil => exact absurd rfl h1
  | cons x t1 =>
      cases s2 with
      | nil => exact absurd rfl h2
      | cons y t2 =>
          simp only [List.headI_cons] at hh
          subst hh
          simp only [List.filter_cons] at hf
          simp only [List.tail_cons]
          by_cases hx : (!x.isEmpty) = true
          · rw [if_pos hx] at hf
            rw [if_pos hx] at hf
            rw [List.cons_append] at hf
            exact List.tail_eq_of_cons_eq hf
          · rw [if_neg hx] at hf
            rw [if_neg hx] at hf
            exact hf

lemma strtokSplit_append_congr (X Y : CStr) (T : List CStr)
    (hh : (splitOnComma X).headI = (splitOnComma Y).headI)
    (hf : strtokSplit X = strtokSplit Y ++ T) (a : CStr) :
    (splitOnComma (a ++ X)).headI = (splitOnComma (a ++ Y)).headI ∧
      strtokSplit (a ++ X) = strtokSplit (a ++ Y) ++ T := by
  induction a with
  | nil => exact ⟨hh, hf⟩
  | cons c a ih =>
      obtain ⟨ih1, ih2⟩ := ih
      by_cases hc : c = ','
      · subst hc
        constructor
        · rw [List.cons_append, List.cons_append, splitOnComma_comma,
            splitOnComma_comma]
          simp only [List.headI_cons]
        · show strtokSplit (',' :: (a ++ X)) = strtokSplit (',' :: (a ++ Y)) ++ T
          unfold strtokSplit
          rw [splitOnComma_comma, splitOnComma_comma]
          simpa [strtokSplit] using ih2
      · constructor
        · rw [List.cons_append, List.cons_append,
            splitOnComma_cons_of_ne _ _ hc, splitOnComma_cons_of_ne _ _ hc]
          simp [ih1]
        · show strtokSplit (c :: (a ++ X)) = strtokSplit (c :: (a ++ Y)) ++ T
          unfold strtokSplit
          rw [splitOnComma_cons_of_ne _ _ hc, splitOnComma_cons_of_ne _ _ hc]
          rw [List.filter_cons, List.filter_cons]
          rw [if_pos (by simp), if_pos (by simp)]
          rw [List.cons_append, ih1]
          congr 1
          exact filter_tail_of_filter_eq _ _ T (splitOnComma_ne_nil _)
            (splitOnComma_ne_nil _) ih1 ih2

/-- Counterexample to claim C10 as stated: `fgets` keeps each line's trailing
newline, so the data row `"1,2,"` reaches `strtok_r` as the buffer `"1,2,\n"`;
its trailing empty field does not vanish but yields the extra token `"\n"`,
and the reader rejects the row as having more than the expected entries
instead of collapsing the trailing comma. -/
theorem strtok_trailing_newline_counterexample :
    strtokSplit (toCStr "1,2,\n") = [toCStr "1", toCStr "2", toCStr "\n"] ∧
    readInputDistributionsFromCSV uxParse (fun l => l.headD 0)
        [toCStr "a,b\n", toCStr "1,2,\n"] [toCStr "a", toCStr "b"]
      = .error (.tooManyEntries 0) := by
  decide

/-- Claim C10, amended: tokenization collapses empty fields between
consecutive commas and at the start of a line, never yields an empty token,
and collapses a trailing comma only when the buffer ends with that comma (a
final line with no newline); on the newline-terminated buffers `fgets`
actually delivers, a line ending in a comma produces one extra `"\n"` token
(so such rows are rejected as having too many entries rather than collapsed —
see the counterexample); the data row `"1,,2"`, with its real trailing
newline, is still accepted against two expected columns as exactly two
columns holding samples `1` and `2`. -/
theorem strtok_collapses_empty_fields_amended :
    (∀ a b : CStr, strtokSplit (a ++ ',' :: ',' :: b) = strtokSplit (a ++ ',' :: b)) ∧
    (∀ l : CStr, strtokSplit (',' :: l) = strtokSplit l) ∧
    (∀ l : CStr, [] ∉ strtokSplit l) ∧
    (∀ a : CStr, strtokSplit (a ++ [',']) = strtokSplit a) ∧
    (∀ a : CStr, strtokSplit (a ++ [',', '\n']) = strtokSplit a ++ [['\n']]) ∧
    (∀ distFromSamples : List ℚ → ℚ,
      readInputDistributionsFromCSV uxParse distFromSamples
        [toCStr "a,b\n", toCStr "1,,2\n"] [toCStr "a", toCStr "b"]
        = .ok [distFromSamples [1], distFromSamples [2]]) := by
  have hend : ∀ a : CStr, strtokSplit (a ++ [',']) = strtokSplit a := by
    intro a
    simpa using (strtokSplit_append_congr [','] [] []
      (by simp [splitOnComma]) (by simp [strtokSplit, splitOnComma]) a).2
  refine ⟨?_, ?_, ?_, hend, ?_, ?_⟩
  · intro a b
    simpa using (strtokSplit_append_congr (',' :: ',' :: b) (',' :: b) []
      (by simp [splitOnComma_comma])
      (by simp [strtokSplit, splitOnComma_comma]) a).2
  · intro l
    unfold strtokSplit
    rw [splitOnComma_comma]
    simp
  · intro l hmem
    have := List.of_mem_filter hmem
    simp at this
  · intro a
    have h1 := (strtokSplit_append_congr [',', '\n'] [','] [['\n']]
      (by decide) (by decide) a).2
    rw [h1, hend a]
  · intro dist
    have hheader : validateInputDistributionCSVHeader (toCStr "a,b\n")
        [toCStr "a", toCStr "b"] = .ok () := by decide
    have hstates : processDataRows uxParse [toCStr "1,,2\n"]
        [initialColState, initialColState] 0
        = .ok [⟨false, [1], 1⟩, ⟨false, [2], 1⟩] := by decide
    have hcs1 : countedSamples ⟨false, [1], 1⟩ = [1] := by decide
    have hcs2 : countedSamples ⟨false, [2], 1⟩ = [2] := by decide
    unfold readInputDistributionsFromCSV
    rw [if_neg (by decide)]
    simp only [List.map_cons, List.map_nil, hheader, hstates, materializeColumn,
      hcs1, hcs2, Bool.false_eq_true, if_false]

/-! ### Buffer and token lemmas for the ingestion claims -/

lemma getD_writeAt_lt (buf : List ℚ) (i k : ℕ) (v : ℚ) (hk : k < i) :
    (writeAt buf i v).getD k 0 = buf.getD k 0 := by
  unfold writeAt
  by_cases hi : i < buf.length
  · rw [if_pos hi, List.getD_eq_getElem?_getD, List.getD_eq_getElem?_getD,
      List.getElem?_set_ne (by omega)]
  · rw [if_neg hi]
    have hle : buf.length ≤ i := by omega
    have hlen : (buf ++ List.replicate (i - buf.length) (0 : ℚ)).length = i := by
      simp only [List.length_append, List.length_replicate]
      omega
    rw [List.getD_eq_getElem?_getD, List.getD_eq_getElem?_getD]
    rw [List.getElem?_append_left (by rw [hlen]; exact hk)]
    by_cases hkb : k < buf.length
    · rw [List.getElem?_append_left hkb]
    · rw [List.getElem?_append_right (by omega)]
      rw [List.getElem?_replicate]
      rw [if_pos (by omega)]
      rw [List.getElem?_eq_none (by omega)]
      rfl

lemma getD_writeAt_self (buf : List ℚ) (i : ℕ) (v : ℚ) :
    (writeAt buf i v).getD i 0 = v := by
  unfold writeAt
  by_cases hi : i < buf.length
  · rw [if_pos hi, List.getD_eq_getElem?_getD,
      List.getElem?_set_self (by simpa using hi)]
    rfl
  · rw [if_neg hi]
    have hlen : (buf ++ List.replicate (i - buf.length) (0 : ℚ)).length = i := by
      simp only [List.length_append, List.length_replicate]
      omega
    rw [List.getD_eq_getElem?_getD]
    rw [List.getElem?_append_right (by rw [hlen])]
    rw [hlen]
    simp

lemma countedSamples_parse (u u2 : Bool) (buf : List ℚ) (c : ℕ) (v : ℚ) :
    countedSamples ⟨u2, writeAt buf c v, c + 1⟩ = countedSamples ⟨u, buf, c⟩ ++ [v] := by
  unfold countedSamples
  simp only [List.range_succ, List.map_append, List.map_cons, List.map_nil]
  congr 1
  · exact List.map_congr_left fun k hk =>
      getD_writeAt_lt buf c k v (List.mem_range.mp hk)
  · rw [getD_writeAt_self]

lemma countedSamples_ignore (u u2 : Bool) (buf : List ℚ) (c : ℕ) :
    countedSamples ⟨u2, writeAt buf c 0, c⟩ = countedSamples ⟨u, buf, c⟩ := by
  unfold countedSamples
  exact List.map_congr_left fun k hk =>
    getD_writeAt_lt buf c k 0 (List.mem_range.mp hk)

lemma countedSamples_length (cs : ColState) :
    (countedSamples cs).length = cs.count := by
  simp [countedSamples]

lemma containsUx_eq_false_of_all_isspace (t : CStr) (h : t.all safeIsspace = true) :
    containsUxMarker t = false := by
  induction t with
  | nil => rfl
  | cons c rest ih =>
      simp only [List.all_cons, Bool.and_eq_true] at h
      unfold containsUxMarker
      rw [ih h.2]
      have hcU : ¬ c = 'U' := by
        intro hc
        subst hc
        exact absurd h.1 (by decide)
      cases rest with
      | nil => simp [startsWithUx]
      | cons c2 r2 => simp [startsWithUx, hcU]

lemma containsUx_eq_false_of_ignore (t : CStr) (h : isIgnoreToken t = true) :
    containsUxMarker t = false := by
  cases t with
  | nil => rfl
  | cons c rest =>
      simp only [isIgnoreToken, Bool.and_eq_true, beq_iff_eq] at h
      obtain ⟨rfl, hall⟩ := h
      unfold containsUxMarker
      rw [containsUx_eq_false_of_all_isspace rest hall]
      cases rest with
      | nil => simp [startsWithUx]
      | cons c2 r2 => simp [startsWithUx]

lemma processToken_ux (parseNum : CStr → Option ℚ) (rowIdx : ℕ) (cs : ColState)
    (tok : CStr) (h : cs.ux = true) :
    processToken parseNum rowIdx cs tok = some cs := by
  simp [processToken, h]

lemma processToken_ignore (parseNum : CStr → Option ℚ) (rowIdx : ℕ) (cs : ColState)
    (tok : CStr) (h1 : cs.ux = false) (h2 : isIgnoreToken tok = true) :
    processToken parseNum rowIdx cs tok
      = some ⟨cs.ux, writeAt cs.buf cs.count 0, cs.count⟩ := by
  have hnux : containsUxMarker tok = false := containsUx_eq_false_of_ignore tok h2
  simp [processToken, h1, h2, hnux]

lemma processToken_parse (parseNum : CStr → Option ℚ) (rowIdx : ℕ) (cs : ColState)
    (tok : CStr) (v : ℚ) (h1 : cs.ux = false) (h2 : isIgnoreToken tok = false)
    (h3 : parseNum tok = some v) :
    processToken parseNum rowIdx cs tok
      = some ⟨(rowIdx == 0 && containsUxMarker tok), writeAt cs.buf cs.count v,
          cs.count + 1⟩ := by
  by_cases hflag : (rowIdx == 0 && containsUxMarker tok) = true
  · simp [processToken, h1, h2, h3, hflag]
  · simp only [Bool.not_eq_true] at hflag
    simp [processToken, h1, h2, h3, hflag]

lemma processToken_parse_fail (parseNum : CStr → Option ℚ) (rowIdx : ℕ)
    (cs : ColState) (tok : CStr) (h1 : cs.ux = false) (h2 : isIgnoreToken tok = false)
    (h3 : parseNum tok = none) :
    processToken parseNum rowIdx cs tok = none := by
  by_cases hflag : (rowIdx == 0 && containsUxMarker tok) = true
  · simp [processToken, h1, h2, h3, hflag]
  · simp only [Bool.not_eq_true] at hflag
    simp [processToken, h1, h2, h3, hflag]

lemma specColumnSamples_append_one (parseNum : CStr → Option ℚ) (L : List CStr)
    (r : CStr) (j : ℕ) :
    specColumnSamples parseNum (L ++ [r]) j
      = specColumnSamples parseNum L j ++
        (if isIgnoreToken (columnTokenAt r j) = true then []
         else (parseNum (columnTokenAt r j)).toList) := by
  unfold specColumnSamples
  rw [List.filterMap_append]
  congr 1
  by_cases hig : isIgnoreToken (columnTokenAt r j) = true
  · simp [hig]
  · simp only [Bool.not_eq_true] at hig
    cases hp : parseNum (columnTokenAt r j) with
    | none => simp [hig, hp]
    | some v => simp [hig, hp]

lemma colState_eta (cs : ColState) : (⟨cs.ux, cs.buf, cs.count⟩ : ColState) = cs := rfl

lemma specColMatches_step (parseNum : CStr → Option ℚ) (rows : List CStr) (r : CStr)
    (j : ℕ) (cs : ColState) (hm : specColMatches parseNum rows j cs)
    (hsafe : cs.ux = true ∨ isIgnoreToken (columnTokenAt r j) = true ∨
      (parseNum (columnTokenAt r j)).isSome = true)
    (hplat : ∀ t, containsUxMarker t = true → (parseNum t).isSome = true) :
    ∃ cs2, processToken parseNum rows.length cs (columnTokenAt r j) = some cs2 ∧
      specColMatches parseNum (rows ++ [r]) j cs2 := by
  cases rows with
  | nil =>
      simp only [specColMatches] at hm
      subst hm
      simp only [List.length_nil, List.nil_append]
      by_cases hux : containsUxMarker (columnTokenAt r j) = true
      · obtain ⟨v, hv⟩ := Option.isSome_iff_exists.mp (hplat _ hux)
        have hnig : isIgnoreToken (columnTokenAt r j) = false := by
          by_contra hig
          simp only [Bool.not_eq_false] at hig
          rw [containsUx_eq_false_of_ignore _ hig] at hux
          exact absurd hux (by simp)
        refine ⟨_, processToken_parse parseNum 0 initialColState _ v rfl hnig hv, ?_⟩
        simp only [specColMatches, hux, if_pos]
        constructor
        · simp [hux]
        · rw [show initialColState.buf = [] from rfl,
            show initialColState.count = 0 from rfl]
          rw [countedSamples_parse false]
          rw [show countedSamples ⟨false, [], 0⟩ = [] from rfl]
          rw [hv]
          simp
      · have hux' : containsUxMarker (columnTokenAt r j) = false := by
          simpa using hux
        by_cases hig : isIgnoreToken (columnTokenAt r j) = true
        · refine ⟨_, processToken_ignore parseNum 0 initialColState _ rfl hig, ?_⟩
          simp only [specColMatches, hux', Bool.false_eq_true, if_false, if_neg]
          constructor
          · rfl
          · rw [show initialColState.buf = [] from rfl,
              show initialColState.count = 0 from rfl,
              show initialColState.ux = false from rfl]
            rw [countedSamples_ignore false]
            rw [show countedSamples ⟨false, [], 0⟩ = [] from rfl]
            simp [specColumnSamples, hig]
        · have hig' : isIgnoreToken (columnTokenAt r j) = false := by simpa using hig
          have hps : (parseNum (columnTokenAt r j)).isSome = true := by
            rcases hsafe with h | h | h
            · exact absurd h (by simp [initialColState])
            · exact absurd h (by simp [hig'])
            · exact h
          obtain ⟨v, hv⟩ := Option.isSome_iff_exists.mp hps
          refine ⟨_, processToken_parse parseNum 0 initialColState _ v rfl hig' hv, ?_⟩
          simp only [specColMatches, hux', Bool.false_eq_true, if_false, if_neg]
          constructor
          · simp [hux']
          · rw [show initialColState.buf = [] from rfl,
              show initialColState.count = 0 from rfl]
            rw [countedSamples_parse false]
            rw [show countedSamples ⟨false, [], 0⟩ = [] from rfl]
            simp [specColumnSamples, hig', hv]
  | cons row0 rows' =>
      simp only [specColMatches] at hm
      by_cases hux0 : containsUxMarker (columnTokenAt row0 j) = true
      · rw [if_pos hux0] at hm
        refine ⟨cs, processToken_ux _ _ _ _ hm.1, ?_⟩
        simp only [List.cons_append, specColMatches]
        rw [if_pos hux0]
        exact hm
      · rw [if_neg hux0] at hm
        obtain ⟨hu, hc⟩ := hm
        by_cases hig : isIgnoreToken (columnTokenAt r j) = true
        · refine ⟨_, processToken_ignore _ _ _ _ hu hig, ?_⟩
          simp only [List.cons_append, specColMatches]
          rw [if_neg hux0]
          constructor
          · exact hu
          · rw [countedSamples_ignore cs.ux, colState_eta, hc]
            have happ := specColumnSamples_append_one parseNum (row0 :: rows') r j
            rw [List.cons_append] at happ
            rw [happ]
            simp [hig]
        · have hig' : isIgnoreToken (columnTokenAt r j) = false := by simpa using hig
          have hps : (parseNum (columnTokenAt r j)).isSome = true := by
            rcases hsafe with h | h | h
            · rw [hu] at h; exact absurd h (by simp)
            · exact absurd h (by simp [hig'])
            · exact h
          obtain ⟨v, hv⟩ := Option.isSome_iff_exists.mp hps
          refine ⟨_, processToken_parse _ _ _ _ v hu hig' hv, ?_⟩
          simp only [List.cons_append, specColMatches]
          rw [if_neg hux0]
          constructor
          · simp
          · rw [countedSamples_parse cs.ux, colState_eta, hc]
            have happ := specColumnSamples_append_one parseNum (row0 :: rows') r j
            rw [List.cons_append] at happ
            rw [happ]
            simp [hig', hv]

lemma processRowTokens_ok (parseNum : CStr → Option ℚ) (rowIdx : ℕ) :
    ∀ (tokens : List CStr) (states : List ColState) (col : ℕ),
    tokens.length = states.length →
    (∀ k, k < tokens.length →
      ∃ cs2, processToken parseNum rowIdx (states.getD k initialColState)
        ((tokens.getD k []).dropWhile safeIsspace) = some cs2) →
    ∃ outs, processRowTokens parseNum rowIdx col tokens states = .ok outs ∧
      outs.length = states.length ∧
      (∀ k, k < tokens.length →
        processToken parseNum rowIdx (states.getD k initialColState)
          ((tokens.getD k []).dropWhile safeIsspace)
          = some (outs.getD k initialColState)) := by
  intro tokens
  induction tokens with
  | nil =>
      intro states col hlen _
      cases states with
      | nil => exact ⟨[], rfl, rfl, fun k hk => absurd hk (by simp)⟩
      | cons cs rest => exact absurd hlen (by simp)
  | cons token restTokens ih =>
      intro states col hlen hstep
      cases states with
      | nil => exact absurd hlen (by simp)
      | cons cs restStates =>
          obtain ⟨cs2, hcs2⟩ := hstep 0 (by simp)
          simp only [List.getD_cons_zero] at hcs2
          obtain ⟨outs', houts', hlen', hpoint⟩ :=
            ih restStates (col + 1) (by simpa using hlen)
              (fun k hk => by
                have := hstep (k + 1) (by simpa using Nat.succ_lt_succ hk)
                simpa using this)
          refine ⟨cs2 :: outs', ?_, by simpa using hlen', ?_⟩
          · unfold processRowTokens
            simp only [hcs2, houts']
          · intro k hk
            cases k with
            | zero => simpa using hcs2
            | succ k =>
                simp only [List.getD_cons_succ]
                exact hpoint k (by simpa using hk)

lemma getD_append_self (l1 : List CStr) (r : CStr) (l2 : List CStr) :
    (l1 ++ r :: l2).getD l1.length [] = r := by
  rw [List.getD_eq_getElem?_getD, List.getElem?_append_right (le_refl _)]
  simp

lemma processDataRows_ok (parseNum : CStr → Option ℚ)
    (hplat : ∀ t, containsUxMarker t = true → (parseNum t).isSome = true)
    (D : List CStr) (N : ℕ)
    (hcols : ∀ line ∈ D, (strtokSplit line).length = N)
    (hwf : ∀ r, r < D.length → ∀ j, j < N →
      (parseNum (columnTokenAt (D.getD r []) j)).isSome = true ∨
      isIgnoreToken (columnTokenAt (D.getD r []) j) = true ∨
      (r = 0 ∧ containsUxMarker (columnTokenAt (D.getD r []) j) = true))
    (hD : D.length ≤ kCommonConstantMaxNumberOfInputSamples) :
    ∀ (remaining processed : List CStr) (states : List ColState),
    D = processed ++ remaining →
    states.length = N →
    (∀ j, j < N → specColMatches parseNum processed j (states.getD j initialColState)) →
    ∃ final, processDataRows parseNum remaining states processed.length = .ok final ∧
      final.length = N ∧
      (∀ j, j < N → specColMatches parseNum D j (final.getD j initialColState)) := by
  intro remaining
  induction remaining with
  | nil =>
      intro processed states hD' hlen hinv
      refine ⟨states, rfl, hlen, ?_⟩
      rw [hD', List.append_nil]
      exact hinv
  | cons r rest ih =>
      intro processed states hD' hlen hinv
      have hmemr : r ∈ D := by rw [hD']; simp
      have htoklen : (strtokSplit r).length = N := hcols r hmemr
      have hDr : D.getD processed.length [] = r := by
        rw [hD']; exact getD_append_self processed r rest
      have hrowlt : processed.length < D.length := by
        rw [hD']; simp
      have hsafe : ∀ k, k < N → (states.getD k initialColState).ux = true ∨
          isIgnoreToken (columnTokenAt r k) = true ∨
          (parseNum (columnTokenAt r k)).isSome = true := by
        intro k hk
        have hw := hwf processed.length hrowlt k hk
        rw [hDr] at hw
        cases hproc : processed with
        | nil =>
            rcases hw with h | h | h
            · exact Or.inr (Or.inr h)
            · exact Or.inr (Or.inl h)
            · exact Or.inr (Or.inr (hplat _ h.2))
        | cons p0 ptail =>
            have hmk := hinv k hk
            rw [hproc] at hmk
            simp only [specColMatches] at hmk
            by_cases hux0 : containsUxMarker (columnTokenAt p0 k) = true
            · rw [if_pos hux0] at hmk
              exact Or.inl hmk.1
            · rcases hw with h | h | h
              · exact Or.inr (Or.inr h)
              · exact Or.inr (Or.inl h)
              · exact absurd h.1 (by rw [hproc]; simp)
      have hstepex : ∀ k, k < (strtokSplit r).length →
          ∃ cs2, processToken parseNum processed.length
            (states.getD k initialColState)
            (((strtokSplit r).getD k []).dropWhile safeIsspace) = some cs2 := by
        intro k hk
        have hk' : k < N := htoklen ▸ hk
        obtain ⟨cs2, hcs2, _⟩ := specColMatches_step parseNum processed r k
          (states.getD k initialColState) (hinv k hk') (hsafe k hk') hplat
        exact ⟨cs2, hcs2⟩
      obtain ⟨outs, houts, holen, hpoint⟩ :=
        processRowTokens_ok parseNum processed.length (strtokSplit r) states 0
          (by rw [htoklen, hlen]) hstepex
      have hinv2 : ∀ j, j < N → specColMatches parseNum (processed ++ [r]) j
          (outs.getD j initialColState) := by
        intro j hj
        obtain ⟨cs2, hcs2, hspec⟩ := specColMatches_step parseNum processed r j
          (states.getD j initialColState) (hinv j hj) (hsafe j hj) hplat
        have hpt := hpoint j (by rw [htoklen]; exact hj)
        have h2 : some cs2 = some (outs.getD j initialColState) :=
          hcs2.symm.trans hpt
        injection h2 with heq
        rw [← heq]
        exact hspec
      obtain ⟨final, hfinal, hflen, hfinv⟩ := ih (processed ++ [r]) outs
        (by rw [hD']; simp) (by rw [holen, hlen]) hinv2
      refine ⟨final, ?_, hflen, hfinv⟩
      unfold processDataRows
      rw [if_neg (by
        unfold kCommonConstantMaxNumberOfInputSamples at hD ⊢
        rw [hD'] at hD
        simp only [List.length_append, List.length_cons] at hD
        omega)]
      simp only [houts]
      have hlen1 : (processed ++ [r]).length = processed.length + 1 := by simp
      rw [← hlen1]
      exact hfinal

/-! ### Well-formed ingestion (claim C1) -/

lemma getD_map_const_initial (l : List CStr) (j : ℕ) :
    (l.map fun _ => initialColState).getD j initialColState = initialColState := by
  induction l generalizing j with
  | nil => simp
  | cons x xs ih =>
      cases j with
      | zero => simp
      | succ j => simp only [List.map_cons, List.getD_cons_succ]; exact ih j

/-- Claim C1: for a well-formed CSV input (a validating header row followed by
`1 ≤ M ≤ 10000` data rows, each tokenizing into exactly `N` fields that are
parseable numbers, ignore-pattern tokens, or first-row distribution-marker
tokens), ingestion returns success and writes exactly `N` output entries:
entry `j` is the row-0 captured value when column `j` was classified as a
distribution column, and otherwise the sample-to-distribution primitive
applied to column `j`'s accumulated samples.  The external parser is assumed
to succeed on marker tokens, as the platform `strtof`/`strtod` do. -/
theorem readCSV_wellFormed_success (parseNum : CStr → Option ℚ)
    (distFromSamples : List ℚ → ℚ) (expectedHeaders : List CStr)
    (headerLine : CStr) (dataLines : List CStr)
    (hplat : ∀ t, containsUxMarker t = true → (parseNum t).isSome = true)
    (hheader : validateInputDistributionCSVHeader headerLine expectedHeaders = .ok ())
    (hM1 : 1 ≤ dataLines.length)
    (hM2 : dataLines.length ≤ kCommonConstantMaxNumberOfInputSamples)
    (hcols : ∀ line ∈ dataLines, (strtokSplit line).length = expectedHeaders.length)
    (hwf : ∀ r, r < dataLines.length → ∀ j, j < expectedHeaders.length →
      (parseNum (columnTokenAt (dataLines.getD r []) j)).isSome = true ∨
      isIgnoreToken (columnTokenAt (dataLines.getD r []) j) = true ∨
      (r = 0 ∧ containsUxMarker (columnTokenAt (dataLines.getD r []) j) = true)) :
    ∃ out, readInputDistributionsFromCSV parseNum distFromSamples
        (headerLine :: dataLines) expectedHeaders = .ok out ∧
      out.length = expectedHeaders.length ∧
      (∀ j, j < expectedHeaders.length →
        out.getD j 0 =
          if containsUxMarker (columnTokenAt dataLines.headI j) = true then
            (parseNum (columnTokenAt dataLines.headI j)).getD 0
          else
            distFromSamples (specColumnSamples parseNum dataLines j)) := by
  by_cases hN : expectedHeaders.length = 0
  · refine ⟨[], ?_, by simp [hN], fun j hj => absurd hj (by omega)⟩
    unfold readInputDistributionsFromCSV
    rw [if_pos hN]
  · obtain ⟨final, hfinal, hflen, hfinv⟩ :=
      processDataRows_ok parseNum hplat dataLines expectedHeaders.length hcols hwf
        hM2 dataLines [] (expectedHeaders.map fun _ => initialColState)
        (by simp) (by simp) (fun j hj => by
          rw [getD_map_const_initial]
          simp [specColMatches])
    simp only [List.length_nil] at hfinal
    refine ⟨final.map (materializeColumn distFromSamples), ?_, by simp [hflen], ?_⟩
    · unfold readInputDistributionsFromCSV
      rw [if_neg hN]
      simp only [hheader, hfinal]
    · intro j hj
      have hjf : j < final.length := by rw [hflen]; exact hj
      rw [List.getD_eq_getElem _ _ (by simpa using hjf), List.getElem_map]
      have hgd : final.getD j initialColState = final[j] :=
        List.getD_eq_getElem final initialColState hjf
      have hm := hfinv j hj
      rw [hgd] at hm
      cases hdl : dataLines with
      | nil => exact absurd hM1 (by simp [hdl])
      | cons d0 drest =>
          rw [hdl] at hm
          simp only [specColMatches] at hm
          simp only [List.headI_cons]
          by_cases hux : containsUxMarker (columnTokenAt d0 j) = true
          · rw [if_pos hux] at hm ⊢
            obtain ⟨hu, hc⟩ := hm
            unfold materializeColumn
            rw [if_pos hu]
            have hcount : (final[j] : ColState).count = 1 := by
              have := congrArg List.length hc
              rw [countedSamples_length] at this
              simpa using this
            unfold countedSamples at hc
            rw [hcount] at hc
            simp only [List.range_succ, List.range_zero, List.nil_append,
              List.map_cons, List.map_nil] at hc
            exact (List.cons_eq_cons.mp hc).1
          · rw [if_neg hux] at hm ⊢
            obtain ⟨hu, hc⟩ := hm
            unfold materializeColumn
            rw [if_neg (by rw [hu]; simp), hc]

/-- Witness for C1 on the CSV `"a,b" / "1,2" / "3,4"`. -/
theorem readCSV_wellFormed_success_witness :
    ∃ out, readInputDistributionsFromCSV uxParse (fun l => l.headD 0)
        [toCStr "a,b", toCStr "1,2", toCStr "3,4"] [toCStr "a", toCStr "b"]
        = .ok out ∧
      out.length = ([toCStr "a", toCStr "b"] : List CStr).length ∧
      (∀ j, j < ([toCStr "a", toCStr "b"] : List CStr).length →
        out.getD j 0 =
          if containsUxMarker
              (columnTokenAt ([toCStr "1,2", toCStr "3,4"] : List CStr).headI j)
              = true then
            (uxParse (columnTokenAt ([toCStr "1,2", toCStr "3,4"] : List CStr).headI j)).getD 0
          else
            (fun l => l.headD 0)
              (specColumnSamples uxParse [toCStr "1,2", toCStr "3,4"] j)) :=
  readCSV_wellFormed_success uxParse (fun l => l.headD 0) [toCStr "a", toCStr "b"]
    (toCStr "a,b") [toCStr "1,2", toCStr "3,4"]
    (fun t h => by simp [uxParse, h])
    (by decide) (by decide) (by decide) (by decide) (by decide)

/-! ### Distribution-column classification (claim C5) -/

lemma specColumnSamples_length_countP (parseNum : CStr → Option ℚ)
    (L : List CStr) (j : ℕ)
    (hp : ∀ line ∈ L, isIgnoreToken (columnTokenAt line j) = false →
      (parseNum (columnTokenAt line j)).isSome = true) :
    (specColumnSamples parseNum L j).length
      = L.countP (fun line => !(isIgnoreToken (columnTokenAt line j))) := by
  induction L with
  | nil => simp [specColumnSamples]
  | cons l L ih =>
      have hih := ih (fun x hx h => hp x (by simp [hx]) h)
      unfold specColumnSamples at hih ⊢
      rw [List.filterMap_cons, List.countP_cons]
      by_cases hig : isIgnoreToken (columnTokenAt l j) = true
      · simp [hig, hih]
      · have hig' : isIgnoreToken (columnTokenAt l j) = false := by simpa using hig
        obtain ⟨v, hv⟩ := Option.isSome_iff_exists.mp (hp l (by simp) hig')
        simp [hig', hv, hih]

/-- Claim C5: a column whose first data-row token contains the marker `"Ux"`
is classified as a distribution column at row 0, the classification never
changes afterwards (a flagged column's tokens are neither parsed nor stored in
any later row — first conjunct, and its sample list stays the single captured
value after every prefix of the ingestion — second conjunct), while a column
without the marker stays unflagged and accumulates exactly one sample per data
row whose token is not the ignore pattern. -/
theorem uxColumn_classification_invariant (parseNum : CStr → Option ℚ)
    (expectedHeaders : List CStr) (dataLines : List CStr)
    (hplat : ∀ t, containsUxMarker t = true → (parseNum t).isSome = true)
    (hM2 : dataLines.length ≤ kCommonConstantMaxNumberOfInputSamples)
    (hcols : ∀ line ∈ dataLines, (strtokSplit line).length = expectedHeaders.length)
    (hwf : ∀ r, r < dataLines.length → ∀ j, j < expectedHeaders.length →
      (parseNum (columnTokenAt (dataLines.getD r []) j)).isSome = true ∨
      isIgnoreToken (columnTokenAt (dataLines.getD r []) j) = true ∨
      (r = 0 ∧ containsUxMarker (columnTokenAt (dataLines.getD r []) j) = true)) :
    (∀ (pn : CStr → Option ℚ) (rowIdx : ℕ) (cs : ColState) (tok : CStr),
      cs.ux = true → processToken pn rowIdx cs tok = some cs) ∧
    (∀ k, 1 ≤ k → k ≤ dataLines.length →
      ∃ states, processDataRows parseNum (dataLines.take k)
          (expectedHeaders.map fun _ => initialColState) 0 = .ok states ∧
        ∀ j, j < expectedHeaders.length →
          ((states.getD j initialColState).ux
              = containsUxMarker (columnTokenAt dataLines.headI j)) ∧
          (containsUxMarker (columnTokenAt dataLines.headI j) = true →
            countedSamples (states.getD j initialColState)
              = [(parseNum (columnTokenAt dataLines.headI j)).getD 0]) ∧
          (containsUxMarker (columnTokenAt dataLines.headI j) = false →
            (countedSamples (states.getD j initialColState)).length
              = (dataLines.take k).countP
                  (fun line => !(isIgnoreToken (columnTokenAt line j))))) := by
  constructor
  · exact fun pn rowIdx cs tok h => processToken_ux pn rowIdx cs tok h
  · intro k hk1 hk2
    have hgd : ∀ r, r < (dataLines.take k).length →
        (dataLines.take k).getD r [] = dataLines.getD r [] := by
      intro r hr
      have hr2 : r < dataLines.length := by
        rw [List.length_take] at hr
        omega
      rw [List.getD_eq_getElem _ _ hr, List.getD_eq_getElem _ _ hr2]
      exact List.getElem_take dataLines
    have hlen' : (dataLines.take k).length ≤ dataLines.length := by
      rw [List.length_take]
      omega
    obtain ⟨final, hfinal, hflen, hfinv⟩ :=
      processDataRows_ok parseNum hplat (dataLines.take k) expectedHeaders.length
        (fun line hl => hcols line (List.take_subset k dataLines hl))
        (fun r hr j hj => by
          rw [hgd r hr]
          exact hwf r (by omega) j hj)
        (le_trans hlen' hM2)
        (dataLines.take k) [] (expectedHeaders.map fun _ => initialColState)
        (by simp) (by simp) (fun j hj => by
          rw [getD_map_const_initial]
          simp [specColMatches])
    simp only [List.length_nil] at hfinal
    refine ⟨final, hfinal, ?_⟩
    intro j hj
    have hm := hfinv j hj
    cases hdl : dataLines with
    | nil => exact absurd (le_trans hk1 hk2) (by simp [hdl])
    | cons d0 drest =>
        obtain ⟨k', rfl⟩ : ∃ k', k = k' + 1 := ⟨k - 1, by omega⟩
        rw [hdl] at hm hgd
        rw [List.take_succ_cons] at hm ⊢
        simp only [specColMatches] at hm
        simp only [List.headI_cons]
        by_cases hux : containsUxMarker (columnTokenAt d0 j) = true
        · rw [if_pos hux] at hm
          refine ⟨by rw [hm.1, hux], fun _ => hm.2, fun hfalse => ?_⟩
          rw [hux] at hfalse
          exact absurd hfalse (by simp)
        · rw [if_neg hux] at hm
          have hux' : containsUxMarker (columnTokenAt d0 j) = false := by
            simpa using hux
          refine ⟨by rw [hm.1, hux'], fun htrue => absurd htrue hux, fun _ => ?_⟩
          rw [hm.2]
          apply specColumnSamples_length_countP
          intro line hline hig
          obtain ⟨r, hr, hlr⟩ := List.mem_iff_getElem.mp hline
          have hrT : r < (List.take (k' + 1) (d0 :: drest)).length := by
            rw [List.take_succ_cons]
            exact hr
          have hrD : r < (d0 :: drest).length := by
            rw [List.length_take] at hrT
            simp only [List.length_cons] at hrT ⊢
            omega
          have h2 : (List.take (k' + 1) (d0 :: drest)).getD r [] = line := by
            rw [List.take_succ_cons, List.getD_eq_getElem _ _ hr]
            exact hlr
          have hlineD : (d0 :: drest).getD r [] = line :=
            (hgd r hrT).symm.trans h2
          have hw := hwf r (by rw [hdl]; exact hrD) j hj
          rw [hdl, hlineD] at hw
          rcases hw with h | h | h
          · exact h
          · exact absurd h (by simp [hig])
          · obtain ⟨hr0, hmk⟩ := h
            subst hr0
            have hl0 : line = d0 := by
              rw [← hlineD]
              simp
            rw [hl0] at hmk
            exact absurd hmk (by simp [hux'])

/-- Witness for C5 on the CSV with data rows `"Ux7,2"` and `"3,4"`. -/
theorem uxColumn_classification_invariant_witness :
    (∀ (pn : CStr → Option ℚ) (rowIdx : ℕ) (cs : ColState) (tok : CStr),
      cs.ux = true → processToken pn rowIdx cs tok = some cs) ∧
    (∀ k, 1 ≤ k → k ≤ ([toCStr "Ux7,2", toCStr "3,4"] : List CStr).length →
      ∃ states, processDataRows uxParse (([toCStr "Ux7,2", toCStr "3,4"] : List CStr).take k)
          (([toCStr "a", toCStr "b"] : List CStr).map fun _ => initialColState) 0 = .ok states ∧
        ∀ j, j < ([toCStr "a", toCStr "b"] : List CStr).length →
          ((states.getD j initialColState).ux
              = containsUxMarker (columnTokenAt ([toCStr "Ux7,2", toCStr "3,4"] : List CStr).headI j)) ∧
          (containsUxMarker (columnTokenAt ([toCStr "Ux7,2", toCStr "3,4"] : List CStr).headI j) = true →
            countedSamples (states.getD j initialColState)
              = [(uxParse (columnTokenAt ([toCStr "Ux7,2", toCStr "3,4"] : List CStr).headI j)).getD 0]) ∧
          (containsUxMarker (columnTokenAt ([toCStr "Ux7,2", toCStr "3,4"] : List CStr).headI j) = false →
            (countedSamples (states.getD j initialColState)).length
              = (([toCStr "Ux7,2", toCStr "3,4"] : List CStr).take k).countP
                  (fun line => !(isIgnoreToken (columnTokenAt line j))))) :=
  uxColumn_classification_invariant uxParse [toCStr "a", toCStr "b"]
    [toCStr "Ux7,2", toCStr "3,4"]
    (fun t h => by simp [uxParse, h])
    (by decide) (by decide) (by decide)

/-! ### Ignore-pattern handling (claim C6) -/

lemma countP_not_eq_length_sub (L : List CStr) (p : CStr → Bool) :
    L.countP (fun x => !(p x)) = L.length - L.countP p := by
  induction L with
  | nil => simp
  | cons a L ih =>
      have hle : L.countP p ≤ L.length := List.countP_le_length p
      rw [List.countP_cons, List.countP_cons, List.length_cons]
      by_cases hp : p a = true
      · simp only [hp, Bool.not_true, Bool.false_eq_true, if_false, if_true, ih]
        omega
      · simp only [Bool.not_eq_true] at hp
        simp only [hp, Bool.not_false, Bool.false_eq_true, if_false, if_true, ih]
        omega

/-- Claim C6: for a non-distribution column, an ignore-pattern token (`-`
followed only by whitespace) stores a zero at the column's current fill index,
does not advance the fill count, raises no parse error, and leaves the counted
samples unchanged (first conjunct); consequently the column's final sample
count falls short of the number of contributing rows by exactly the number of
such tokens (second conjunct); the spec's concrete row `"1, -   ,3"` against
three non-distribution columns stores `1` and `3` and skips the middle token
(third conjunct). -/
theorem ignore_pattern_behavior :
    (∀ (parseNum : CStr → Option ℚ) (rowIdx : ℕ) (cs : ColState) (tok : CStr),
      cs.ux = false → isIgnoreToken tok = true →
      processToken parseNum rowIdx cs tok
          = some ⟨cs.ux, writeAt cs.buf cs.count 0, cs.count⟩ ∧
        (writeAt cs.buf cs.count 0).getD cs.count 0 = 0 ∧
        countedSamples ⟨cs.ux, writeAt cs.buf cs.count 0, cs.count⟩
          = countedSamples cs) ∧
    (∀ (parseNum : CStr → Option ℚ) (L : List CStr) (j : ℕ),
      (∀ line ∈ L, isIgnoreToken (columnTokenAt line j) = false →
        (parseNum (columnTokenAt line j)).isSome = true) →
      (specColumnSamples parseNum L j).length
        = L.length - L.countP (fun line => isIgnoreToken (columnTokenAt line j))) ∧
    (processRowTokens uxParse 0 0 (strtokSplit (toCStr "1, -   ,3"))
        [initialColState, initialColState, initialColState]
      = .ok [⟨false, [1], 1⟩, ⟨false, [0], 0⟩, ⟨false, [3], 1⟩]) := by
  refine ⟨?_, ?_, by decide⟩
  · intro parseNum rowIdx cs tok h1 h2
    refine ⟨processToken_ignore parseNum rowIdx cs tok h1 h2, ?_, ?_⟩
    · exact getD_writeAt_self cs.buf cs.count 0
    · rw [countedSamples_ignore cs.ux, colState_eta]
  · intro parseNum L j hp
    rw [specColumnSamples_length_countP parseNum L j hp]
    exact countP_not_eq_length_sub L _

/-- Witness for C6: an ignore token `"- "` applied to a mid-ingestion column
state. -/
theorem ignore_pattern_behavior_witness :
    processToken uxParse 3 ⟨false, [7], 1⟩ (toCStr "- ")
        = some ⟨false, writeAt [7] 1 0, 1⟩ ∧
      (writeAt [7] 1 0).getD 1 0 = 0 ∧
      countedSamples ⟨false, writeAt [7] 1 0, 1⟩ = countedSamples ⟨false, [7], 1⟩ :=
  ignore_pattern_behavior.1 uxParse 3 ⟨false, [7], 1⟩ (toCStr "- ") rfl (by decide)

/-! ### Capacity ceiling (claim C7) -/

lemma processToken_count_le (parseNum : CStr → Option ℚ) (rowIdx : ℕ)
    (cs cs2 : ColState) (tok : CStr)
    (h : processToken parseNum rowIdx cs tok = some cs2) :
    cs2.count ≤ cs.count + 1 := by
  by_cases hux : cs.ux = true
  · rw [processToken_ux parseNum rowIdx cs tok hux] at h
    injection h with h
    rw [← h]
    exact Nat.le_succ _
  · have hux' : cs.ux = false := by simpa using hux
    by_cases hig : isIgnoreToken tok = true
    · rw [processToken_ignore parseNum rowIdx cs tok hux' hig] at h
      injection h with h
      rw [← h]
      exact Nat.le_succ _
    · have hig' : isIgnoreToken tok = false := by simpa using hig
      cases hp : parseNum tok with
      | none =>
          rw [processToken_parse_fail parseNum rowIdx cs tok hux' hig' hp] at h
          exact absurd h (by simp)
      | some v =>
          rw [processToken_parse parseNum rowIdx cs tok v hux' hig' hp] at h
          injection h with h
          rw [← h]

lemma processRowTokens_count_le (parseNum : CStr → Option ℚ) (rowIdx : ℕ) :
    ∀ (tokens : List CStr) (states outs : List ColState) (col : ℕ),
    processRowTokens parseNum rowIdx col tokens states = .ok outs →
    ∀ k, (outs.getD k initialColState).count
      ≤ (states.getD k initialColState).count + 1 := by
  intro tokens
  induction tokens with
  | nil =>
      intro states outs col h k
      cases states with
      | nil =>
          unfold processRowTokens at h
          injection h with h
          rw [← h]
          simp [initialColState]
      | cons cs rest => exact absurd h (by unfold processRowTokens; simp)
  | cons token restTokens ih =>
      intro states outs col h k
      cases states with
      | nil => exact absurd h (by unfold processRowTokens; simp)
      | cons cs restStates =>
          unfold processRowTokens at h
          cases hpt : processToken parseNum rowIdx cs
              (token.dropWhile safeIsspace) with
          | none => simp [hpt] at h
          | some cs2 =>
              simp only [hpt] at h
              cases hrec : processRowTokens parseNum rowIdx (col + 1)
                  restTokens restStates with
              | error e => simp [hrec] at h
              | ok outs' =>
                  simp only [hrec, Except.ok.injEq] at h
                  rw [← h]
                  cases k with
                  | zero =>
                      simpa using processToken_count_le parseNum rowIdx cs cs2 _ hpt
                  | succ k =>
                      simpa using ih restStates outs' (col + 1) hrec k

lemma processDataRows_count_le (parseNum : CStr → Option ℚ) :
    ∀ (lines : List CStr) (states final : List ColState) (rowIdx : ℕ),
    processDataRows parseNum lines states rowIdx = .ok final →
    ∀ k, (final.getD k initialColState).count
      ≤ (states.getD k initialColState).count
        + (kCommonConstantMaxNumberOfInputSamples - rowIdx) := by
  intro lines
  induction lines with
  | nil =>
      intro states final rowIdx h k
      unfold processDataRows at h
      injection h with h
      rw [← h]
      omega
  | cons r rest ih =>
      intro states final rowIdx h k
      unfold processDataRows at h
      by_cases hcap : kCommonConstantMaxNumberOfInputSamples ≤ rowIdx
      · rw [if_pos hcap] at h
        exact absurd h (by simp)
      · rw [if_neg hcap] at h
        cases hrt : processRowTokens parseNum rowIdx 0 (strtokSplit r) states with
        | error e => rw [hrt] at h; exact absurd h (by simp)
        | ok outs =>
            rw [hrt] at h
            simp only at h
            have h1 := ih outs final (rowIdx + 1) h k
            have h2 := processRowTokens_count_le parseNum rowIdx
              (strtokSplit r) states outs 0 hrt k
            unfold kCommonConstantMaxNumberOfInputSamples at hcap h1 ⊢
            omega

lemma processDataRows_at_capacity (parseNum : CStr → Option ℚ)
    (rows : List CStr) (states : List ColState) (i : ℕ) (hrows : rows ≠ [])
    (hi : kCommonConstantMaxNumberOfInputSamples ≤ i) :
    processDataRows parseNum rows states i = .error .tooManyRows := by
  cases rows with
  | nil => exact absurd rfl hrows
  | cons r rest =>
      unfold processDataRows
      rw [if_pos hi]

lemma processDataRows_append_ok (parseNum : CStr → Option ℚ) :
    ∀ (a b : List CStr) (states : List ColState) (i : ℕ) (s : List ColState),
    processDataRows parseNum a states i = .ok s →
    processDataRows parseNum (a ++ b) states i
      = processDataRows parseNum b s (i + a.length) := by
  intro a
  induction a with
  | nil =>
      intro b states i s h
      unfold processDataRows at h
      injection h with h
      subst h
      simp
  | cons r a ih =>
      intro b states i s h
      unfold processDataRows at h
      rw [List.cons_append]
      by_cases hcap : kCommonConstantMaxNumberOfInputSamples ≤ i
      · rw [if_pos hcap] at h
        exact absurd h (by simp)
      · rw [if_neg hcap] at h
        cases hrt : processRowTokens parseNum i 0 (strtokSplit r) states with
        | error e => simp [hrt] at h
        | ok outs =>
            simp only [hrt] at h
            conv_lhs => unfold processDataRows
            rw [if_neg hcap]
            simp only [hrt]
            rw [ih b outs (i + 1) s h]
            have harith : i + 1 + a.length = i + (r :: a).length := by
              simp only [List.length_cons]
              omega
            rw [harith]

lemma processRowTokens_error_ne_tooManyRows (parseNum : CStr → Option ℚ)
    (rowIdx : ℕ) :
    ∀ (tokens : List CStr) (states : List ColState) (col : ℕ) (e : ReadError),
    processRowTokens parseNum rowIdx col tokens states = .error e →
    e ≠ .tooManyRows := by
  intro tokens
  induction tokens with
  | nil =>
      intro states col e h
      cases states with
      | nil => exact absurd h (by unfold processRowTokens; simp)
      | cons cs rest =>
          unfold processRowTokens at h
          injection h with h
          rw [← h]
          simp
  | cons token restTokens ih =>
      intro states col e h
      cases states with
      | nil =>
          unfold processRowTokens at h
          injection h with h
          rw [← h]
          simp
      | cons cs restStates =>
          unfold processRowTokens at h
          cases hpt : processToken parseNum rowIdx cs
              (token.dropWhile safeIsspace) with
          | none =>
              simp only [hpt, Except.error.injEq] at h
              rw [← h]
              simp
          | some cs2 =>
              simp only [hpt] at h
              cases hrec : processRowTokens parseNum rowIdx (col + 1)
                  restTokens restStates with
              | error e2 =>
                  simp only [hrec, Except.error.injEq] at h
                  rw [← h]
                  exact ih restStates (col + 1) e2 hrec
              | ok outs' =>
                  simp [hrec] at h

lemma processDataRows_ne_tooManyRows (parseNum : CStr → Option ℚ) :
    ∀ (rows : List CStr) (states : List ColState) (i : ℕ),
    i + rows.length ≤ kCommonConstantMaxNumberOfInputSamples →
    processDataRows parseNum rows states i ≠ .error .tooManyRows := by
  intro rows
  induction rows with
  | nil =>
      intro states i _
      unfold processDataRows
      simp
  | cons r rest ih =>
      intro states i hle
      simp only [List.length_cons] at hle
      unfold processDataRows
      rw [if_neg (by unfold kCommonConstantMaxNumberOfInputSamples at hle ⊢; omega)]
      cases hrt : processRowTokens parseNum i 0 (strtokSplit r) states with
      | error e =>
          simp only
          intro hcontra
          injection hcontra with hcontra
          exact processRowTokens_error_ne_tooManyRows parseNum i
            (strtokSplit r) states 0 e hrt hcontra
      | ok outs =>
          simp only
          exact ih outs (i + 1) (by omega)

/-- Claim C7: per-column sample buffers never hold more than
`kCommonConstantMaxNumberOfInputSamples` (10000) samples — every successful
run of the data-row loop starting at row cursor `rowIdx` adds at most
`10000 - rowIdx` samples per column (first conjunct); a file whose first
10000 data rows process successfully and which still has rows left aborts
with the capacity error, irrespective of the content of the remaining rows
(second conjunct); and a file with at most 10000 data rows is never rejected
for capacity (third conjunct). -/
theorem sampleBuffer_capacity_limit :
    (∀ (parseNum : CStr → Option ℚ) (lines : List CStr)
        (states final : List ColState) (rowIdx : ℕ),
      processDataRows parseNum lines states rowIdx = .ok final →
      ∀ k, (final.getD k initialColState).count
        ≤ (states.getD k initialColState).count
          + (kCommonConstantMaxNumberOfInputSamples - rowIdx)) ∧
    (∀ (parseNum : CStr → Option ℚ) (distFromSamples : List ℚ → ℚ)
        (expectedHeaders : List CStr) (headerLine : CStr)
        (prefixRows extraRows : List CStr) (s : List ColState),
      expectedHeaders.length ≠ 0 →
      validateInputDistributionCSVHeader headerLine expectedHeaders = .ok () →
      prefixRows.length = kCommonConstantMaxNumberOfInputSamples →
      processDataRows parseNum prefixRows
        (expectedHeaders.map fun _ => initialColState) 0 = .ok s →
      extraRows ≠ [] →
      readInputDistributionsFromCSV parseNum distFromSamples
        (headerLine :: (prefixRows ++ extraRows)) expectedHeaders
        = .error .tooManyRows) ∧
    (∀ (parseNum : CStr → Option ℚ) (distFromSamples : List ℚ → ℚ)
        (expectedHeaders : List CStr) (headerLine : CStr) (dataLines : List CStr),
      dataLines.length ≤ kCommonConstantMaxNumberOfInputSamples →
      readInputDistributionsFromCSV parseNum distFromSamples
        (headerLine :: dataLines) expectedHeaders ≠ .error .tooManyRows) := by
  refine ⟨?_, ?_, ?_⟩
  · exact fun parseNum lines states final rowIdx h k =>
      processDataRows_count_le parseNum lines states final rowIdx h k
  · intro parseNum distFromSamples expectedHeaders headerLine prefixRows extraRows s
      hN hheader hplen hpre hextra
    unfold readInputDistributionsFromCSV
    rw [if_neg hN]
    simp only [hheader]
    rw [processDataRows_append_ok parseNum prefixRows extraRows
      (expectedHeaders.map fun _ => initialColState) 0 s hpre]
    rw [processDataRows_at_capacity parseNum extraRows s (0 + prefixRows.length)
      hextra (by omega)]
  · intro parseNum distFromSamples expectedHeaders headerLine dataLines hlen heq
    unfold readInputDistributionsFromCSV at heq
    by_cases hN : expectedHeaders.length = 0
    · rw [if_pos hN] at heq
      exact absurd heq (by simp)
    · rw [if_neg hN] at heq
      cases hv : validateInputDistributionCSVHeader headerLine expectedHeaders with
      | error e => simp [hv] at heq
      | ok u =>
          cases u
          simp only [hv] at heq
          cases hpd : processDataRows parseNum dataLines
              (expectedHeaders.map fun _ => initialColState) 0 with
          | error e =>
              simp only [hpd, Except.error.injEq] at heq
              rw [heq] at hpd
              exact processDataRows_ne_tooManyRows parseNum dataLines
                (expectedHeaders.map fun _ => initialColState) 0 (by omega) hpd
          | ok st =>
              simp only [hpd] at heq
              exact absurd heq (by simp)

lemma processDataRows_ignoreRows :
    ∀ (k i : ℕ), i + k ≤ kCommonConstantMaxNumberOfInputSamples →
    processDataRows uxParse (List.replicate k (toCStr "-")) [⟨false, [0], 0⟩] i
      = .ok [⟨false, [0], 0⟩] := by
  intro k
  induction k with
  | zero => intro i _; rfl
  | succ k ih =>
      intro i hik
      rw [List.replicate_succ]
      unfold processDataRows
      rw [if_neg (by
        unfold kCommonConstantMaxNumberOfInputSamples at hik ⊢
        omega)]
      have hrow : processRowTokens uxParse i 0 (strtokSplit (toCStr "-"))
          [⟨false, [0], 0⟩] = .ok [⟨false, [0], 0⟩] := by
        have hsplit : strtokSplit (toCStr "-") = [['-']] := by decide
        rw [hsplit]
        unfold processRowTokens
        have hpt : processToken uxParse i ⟨false, [0], 0⟩
            (List.dropWhile safeIsspace ['-']) = some ⟨false, [0], 0⟩ := by
          have htrim : List.dropWhile safeIsspace ['-'] = ['-'] := by decide
          rw [htrim, processToken_ignore uxParse i ⟨false, [0], 0⟩ ['-'] rfl (by decide)]
          simp [writeAt]
        simp only [hpt]
        rfl
      simp only [hrow]
      exact ih (i + 1) (by omega)

/-- Witness for C7: a file with 10001 ignore-token rows is rejected with the
capacity error, and a one-row file is not. -/
theorem sampleBuffer_capacity_limit_witness :
    readInputDistributionsFromCSV uxParse (fun l => l.headD 0)
        (toCStr "a" :: ((toCStr "-" :: List.replicate 9999 (toCStr "-"))
          ++ [toCStr "-"])) [toCStr "a"]
      = .error .tooManyRows ∧
    readInputDistributionsFromCSV uxParse (fun l => l.headD 0)
        [toCStr "a", toCStr "1"] [toCStr "a"] ≠ .error .tooManyRows := by
  constructor
  · have hfirst : processRowTokens uxParse 0 0 (strtokSplit (toCStr "-"))
        [initialColState] = .ok [⟨false, [0], 0⟩] := by decide
    have hpre : processDataRows uxParse
        (toCStr "-" :: List.replicate 9999 (toCStr "-"))
        (([toCStr "a"] : List CStr).map fun _ => initialColState) 0
        = .ok [⟨false, [0], 0⟩] := by
      show processDataRows uxParse (toCStr "-" :: List.replicate 9999 (toCStr "-"))
        [initialColState] 0 = .ok [⟨false, [0], 0⟩]
      unfold processDataRows
      rw [if_neg (by decide)]
      simp only [hfirst]
      exact processDataRows_ignoreRows 9999 1 (by decide)
    exact sampleBuffer_capacity_limit.2.1 uxParse (fun l => l.headD 0)
      [toCStr "a"] (toCStr "a") (toCStr "-" :: List.replicate 9999 (toCStr "-"))
      [toCStr "-"] [⟨false, [0], 0⟩] (by decide) (by decide)
      (by simp only [List.length_cons, List.length_replicate,
        kCommonConstantMaxNumberOfInputSamples]) hpre (by simp)
  · exact sampleBuffer_capacity_limit.2.2 uxParse (fun l => l.headD 0)
      [toCStr "a"] (toCStr "a") [toCStr "1"] (by decide)
